import Mathlib

/-!
Verification development for the `barney-ci/go-otel` trace-context
propagation library.

The definitions below are shallow embeddings of the Go source files
`uber.go` (the `uber-trace-id` legacy Jaeger codec), `environ.go`
(the process-environment carrier and its key transcoding) and
`kafka.go` (the message-header carrier).  Strings handled by the
codec are modelled as `List Char`; the environment transcoder, which
in the source iterates over the raw bytes of the key, is modelled
over `List Nat` byte lists; byte values are `Nat` with explicit
bounds where overflow or range matters.
-/

namespace GoOtel

/-! ### Hexadecimal primitives (model of Go `encoding/hex`)

`hex.DecodeString` decodes pairs of digits left to right; an odd-length
input or a non-hex digit yields an error (all error values are collapsed
into `none`).  `hex.EncodeToString` emits two lowercase digits per byte,
via the table "0123456789abcdef". -/

/-- Value of one hex digit, accepting `0-9`, `a-f`, `A-F` exactly as
Go `encoding/hex` does. -/
def hexDigitVal (c : Char) : Option Nat :=
  if '0' ≤ c ∧ c ≤ '9' then some (c.toNat - '0'.toNat)
  else if 'a' ≤ c ∧ c ≤ 'f' then some (c.toNat - 'a'.toNat + 10)
  else if 'A' ≤ c ∧ c ≤ 'F' then some (c.toNat - 'A'.toNat + 10)
  else none

/-- Model of `hex.DecodeString`: decodes digit pairs; odd length or an
invalid digit is an error (`none`). -/
def hexDecode : List Char → Option (List Nat)
  | [] => some []
  | [_] => none
  | c1 :: c2 :: rest =>
    match hexDigitVal c1, hexDigitVal c2, hexDecode rest with
    | some hi, some lo, some bs => some ((16 * hi + lo) :: bs)
    | _, _, _ => none

/-- Lowercase hex digit character for a value below 16, per the Go
`encoding/hex` table "0123456789abcdef". -/
def natToHexDigitChar (n : Nat) : Char :=
  if n < 10 then Char.ofNat ('0'.toNat + n) else Char.ofNat ('a'.toNat + (n - 10))

/-- Two lowercase hex digits of one byte, as `hex.EncodeToString` emits. -/
def hexEncodeByte (b : Nat) : List Char :=
  [natToHexDigitChar (b / 16), natToHexDigitChar (b % 16)]

/-- Model of `hex.EncodeToString` on a byte slice. -/
def hexEncode (bs : List Nat) : List Char :=
  (bs.map hexEncodeByte).flatten

theorem hexDigitVal_natToHexDigitChar : ∀ d, d < 16 → hexDigitVal (natToHexDigitChar d) = some d := by
  decide

theorem hexEncode_cons (b : Nat) (rest : List Nat) :
    hexEncode (b :: rest) =
      natToHexDigitChar (b / 16) :: natToHexDigitChar (b % 16) :: hexEncode rest := by
  simp [hexEncode, hexEncodeByte]

theorem hexDecode_hexEncode (bs : List Nat) (hb : ∀ b ∈ bs, b < 256) :
    hexDecode (hexEncode bs) = some bs := by
  induction bs with
  | nil => rfl
  | cons b rest ih =>
    have hb0 : b < 256 := hb b (List.mem_cons_self _ _)
    have hhi : b / 16 < 16 := Nat.div_lt_of_lt_mul (by omega)
    have hlo : b % 16 < 16 := Nat.mod_lt _ (by omega)
    have ih' := ih (fun x hx => hb x (List.mem_cons_of_mem _ hx))
    rw [hexEncode_cons]
    simp only [hexDecode]
    rw [hexDigitVal_natToHexDigitChar _ hhi, hexDigitVal_natToHexDigitChar _ hlo, ih']
    show some ((16 * (b / 16) + b % 16) :: rest) = some (b :: rest)
    have : 16 * (b / 16) + b % 16 = b := by omega
    rw [this]

theorem hexEncode_length (bs : List Nat) : (hexEncode bs).length = 2 * bs.length := by
  induction bs with
  | nil => rfl
  | cons b rest ih =>
    rw [hexEncode_cons]
    simp only [List.length_cons]
    omega

/-- An odd-length string never hex-decodes (Go `hex.ErrLength`). -/
theorem hexDecode_odd : ∀ s : List Char, s.length % 2 = 1 → hexDecode s = none
  | [], h => by simp at h
  | [_], _ => rfl
  | c1 :: c2 :: rest, h => by
    have hr : rest.length % 2 = 1 := by
      simp only [List.length_cons] at h
      omega
    simp only [hexDecode, hexDecode_odd rest hr]
    cases hexDigitVal c1 <;> cases hexDigitVal c2 <;> rfl

/-! ### The `uber-trace-id` header pattern

`uber.go` parses the header with
`^(?P<traceID>[0-9a-f]{1,32}):(?P<spanID>[0-9a-f]{1,16}):(?P<parentSpanID>[0-9a-f]{1,16}):(?P<traceFlags>[0-9a-f]{1,2})(?:-.*)?$`.
Because the `[0-9a-f]` character class contains neither `:` nor `-`,
each greedy group necessarily captures a maximal run of lowercase hex
digits, and the whole anchored pattern matches exactly when the input
splits into four such runs of the stated widths separated by `:`,
optionally followed by `-` and an arbitrary suffix.  `uberHdrMatch`
embeds the regular expression through that deterministic reading. -/

/-- Membership in the regexp character class `[0-9a-f]`. -/
def isHexLower (c : Char) : Bool :=
  decide (('0' ≤ c ∧ c ≤ '9') ∨ ('a' ≤ c ∧ c ≤ 'f'))

/-- Consume the maximal run of `[0-9a-f]` characters and require its
length to lie in `[lo, hi]` (one bounded greedy group of the pattern). -/
def hexRun (h : List Char) (lo hi : Nat) : Option (List Char × List Char) :=
  if lo ≤ (h.takeWhile isHexLower).length ∧ (h.takeWhile isHexLower).length ≤ hi then
    some (h.takeWhile isHexLower, h.dropWhile isHexLower)
  else none

/-- Consume the literal `:` separating two groups of the pattern. -/
def expectColon (l : List Char) : Option (List Char) :=
  match l with
  | [] => none
  | c :: r => if c = ':' then some r else none

/-- The optional anchored tail `(?:-.*)?$`: end of input, or `-`
followed by a suffix free of newlines — in Go's RE2 syntax `.` does
not match `\n` (the `s` flag is off) and `$` anchors at the end of the
text, so a tail containing a newline fails the whole pattern. -/
def acceptTail (l : List Char) : Bool :=
  match l with
  | [] => true
  | c :: rest => decide (c = '-') && rest.all (fun x => decide (x ≠ '\n'))

/-- Submatch extraction of `uberHdrRegExp`: the four captured groups
(trace-id, span-id, parent-span-id, flags), or `none` when the header
does not match. -/
def uberHdrMatch (h : List Char) : Option (List Char × List Char × List Char × List Char) :=
  (hexRun h 1 32).bind fun tr =>
  (expectColon tr.2).bind fun r1 =>
  (hexRun r1 1 16).bind fun sr =>
  (expectColon sr.2).bind fun r2 =>
  (hexRun r2 1 16).bind fun pr =>
  (expectColon pr.2).bind fun r3 =>
  (hexRun r3 1 2).bind fun fr =>
  if acceptTail fr.2 then some (tr.1, sr.1, pr.1, fr.1) else none

/-! ### The legacy codec (`uber.go`) -/

/-- Model of `decodeHexID`: hex-decode `s`, reject when the decoded
bytes exceed `size`, zero-left-pad to `size` bytes, and reject an
all-zero value.  (The source builds the padded slice before testing its
`allZeroes` flag; the value returned is the same.) -/
def decodeHexID (s : List Char) (size : Nat) : Option (List Nat) :=
  match hexDecode s with
  | none => none
  | some data =>
    if size < data.length then none
    else if data.all (· == 0) then none
    else some (List.replicate (size - data.length) 0 ++ data)

/-- Model of `trace.SpanContext` restricted to the fields `uber.go`
uses: a 16-byte trace id, an 8-byte span id and one flags byte. -/
structure SpanContext where
  traceID : List Nat
  spanID : List Nat
  traceFlags : Nat
deriving DecidableEq, Repr

/-- The zero value `trace.SpanContext\x7b\x7d`. -/
def SpanContext.zero : SpanContext :=
  ⟨List.replicate 16 0, List.replicate 8 0, 0⟩

/-- `trace.SpanContext.IsValid`: both ids differ from their all-zero
(nil) values. -/
def SpanContext.isValid (sc : SpanContext) : Bool :=
  decide (sc.traceID ≠ List.replicate 16 0) && decide (sc.spanID ≠ List.replicate 8 0)

/-- The fixed header key `uber-trace-id`. -/
def uberHeaderKey : List Char := "uber-trace-id".data

/-- The header value `Inject` formats:
`%s:%s:%016x:%s` of the trace id (32 lowercase hex digits), the span id
(16 digits), the deprecated parent-span-id `0` padded to 16 digits, and
the masked flags byte, which `trace.TraceFlags.String` renders as two
lowercase hex digits. -/
def uberInjectValue (sc : SpanContext) : List Char :=
  hexEncode sc.traceID ++ ':' ::
    (hexEncode sc.spanID ++ ':' ::
      (List.replicate 16 '0' ++ ':' :: hexEncodeByte (sc.traceFlags &&& 1)))

/-- A generic `propagation.TextMapCarrier` as a list of key/value
pairs: `Get` returns the first value stored under the key (empty string
when absent), `Set` overwrites the first pair with the key or appends a
new pair. -/
def carrierGet (c : List (List Char × List Char)) (k : List Char) : List Char :=
  match c with
  | [] => []
  | kv :: rest => if kv.1 = k then kv.2 else carrierGet rest k

/-- `Set` for the generic carrier model. -/
def carrierSet (c : List (List Char × List Char)) (k v : List Char) :
    List (List Char × List Char) :=
  match c with
  | [] => [(k, v)]
  | kv :: rest => if kv.1 = k then (kv.1, v) :: rest else kv :: carrierSet rest k v

/-- `UberTraceContext.Inject`: a no-op on an invalid span context,
otherwise writes the formatted header value under `uber-trace-id`. -/
def uberInject (sc : SpanContext) (carrier : List (List Char × List Char)) :
    List (List Char × List Char) :=
  if sc.isValid then carrierSet carrier uberHeaderKey (uberInjectValue sc) else carrier

/-- The body of `UberTraceContext.extract` on the header value fetched
from the carrier: returns the zero span context on an empty header, a
failed pattern match, a failed or all-zero id decode, a failed flags
decode, or an invalid result.  `flags[0]` is modelled by `headD 0`; the
list is never empty where it is read, since a matched flags group that
hex-decodes has exactly two digits. -/
def uberExtractHeader (h : List Char) : SpanContext :=
  if h = [] then SpanContext.zero
  else
    match uberHdrMatch h with
    | none => SpanContext.zero
    | some (t, s, _p, f) =>
      match decodeHexID t 16 with
      | none => SpanContext.zero
      | some traceID =>
        match decodeHexID s 8 with
        | none => SpanContext.zero
        | some spanID =>
          match hexDecode f with
          | none => SpanContext.zero
          | some flags =>
            let sc : SpanContext := ⟨traceID, spanID, flags.headD 0 &&& 1⟩
            if sc.isValid then sc else SpanContext.zero

/-- `UberTraceContext.extract`: read the `uber-trace-id` value from the
carrier and parse it. -/
def uberExtract (carrier : List (List Char × List Char)) : SpanContext :=
  uberExtractHeader (carrierGet carrier uberHeaderKey)

/-- `UberTraceContext.Extract` at the context level.  A Go
`context.Context` is modelled by its remote span context slot
(`none` = no span context stored): the extracted span context replaces
it only when valid, otherwise the caller's context is returned
unchanged.  The Go signature returns no error value at all. -/
def uberExtractCtx (ctx : Option SpanContext) (carrier : List (List Char × List Char)) :
    Option SpanContext :=
  let sc := uberExtract carrier
  if sc.isValid then some sc else ctx

/-- Well-formedness carried by the Go types `trace.TraceID` ([16]byte),
`trace.SpanID` ([8]byte) and `trace.TraceFlags` (byte). -/
def SpanContext.wellFormed (sc : SpanContext) : Prop :=
  sc.traceID.length = 16 ∧ (∀ b ∈ sc.traceID, b < 256) ∧
  sc.spanID.length = 8 ∧ (∀ b ∈ sc.spanID, b < 256) ∧
  sc.traceFlags < 256

/-! ### Parsing lemmas for the header pattern -/

theorem takeWhile_dropWhile_nil (p : Char → Bool) :
    ∀ l : List Char, ((l.dropWhile p).takeWhile p) = []
  | [] => rfl
  | a :: l => by
    by_cases hpa : p a
    · rw [List.dropWhile_cons_of_pos hpa]
      exact takeWhile_dropWhile_nil p l
    · rw [List.dropWhile_cons_of_neg hpa, List.takeWhile_cons_of_neg hpa]

theorem hexRun_of_shape (t rest : List Char) (lo hi : Nat)
    (ht : ∀ c ∈ t, isHexLower c)
    (hr : rest.takeWhile isHexLower = [])
    (h1 : lo ≤ t.length) (h2 : t.length ≤ hi) :
    hexRun (t ++ rest) lo hi = some (t, rest) := by
  have hdrop : rest.dropWhile isHexLower = rest := by
    have hx := List.takeWhile_append_dropWhile isHexLower rest
    rw [hr] at hx
    simpa using hx
  unfold hexRun
  rw [List.takeWhile_append_of_pos ht, hr, List.append_nil,
    List.dropWhile_append_of_pos ht, hdrop, if_pos ⟨h1, h2⟩]

theorem hexRun_eq_some {h t r : List Char} {lo hi : Nat}
    (e : hexRun h lo hi = some (t, r)) :
    h = t ++ r ∧ (∀ c ∈ t, isHexLower c) ∧ lo ≤ t.length ∧ t.length ≤ hi ∧
      r.takeWhile isHexLower = [] := by
  unfold hexRun at e
  split at e
  · rename_i hcond
    simp only [Option.some.injEq, Prod.mk.injEq] at e
    obtain ⟨et, er⟩ := e
    subst et
    subst er
    refine ⟨(List.takeWhile_append_dropWhile isHexLower h).symm,
      fun c hc => List.mem_takeWhile_imp hc, hcond.1, hcond.2,
      takeWhile_dropWhile_nil isHexLower h⟩
  · simp at e

theorem expectColon_eq_some {l r : List Char} (e : expectColon l = some r) :
    l = ':' :: r := by
  cases l with
  | nil => simp [expectColon] at e
  | cons c r0 =>
    simp only [expectColon] at e
    split at e
    · rename_i hc
      simp only [Option.some.injEq] at e
      rw [hc, e]
    · simp at e

theorem expectColon_colon (l : List Char) : expectColon (':' :: l) = some l := by
  simp [expectColon]

theorem uberHdrMatch_of_shape (t s p f rest : List Char)
    (ht : ∀ c ∈ t, isHexLower c) (hs : ∀ c ∈ s, isHexLower c)
    (hp : ∀ c ∈ p, isHexLower c) (hf : ∀ c ∈ f, isHexLower c)
    (lt1 : 1 ≤ t.length) (lt2 : t.length ≤ 32)
    (ls1 : 1 ≤ s.length) (ls2 : s.length ≤ 16)
    (lp1 : 1 ≤ p.length) (lp2 : p.length ≤ 16)
    (lf1 : 1 ≤ f.length) (lf2 : f.length ≤ 2)
    (hrest : acceptTail rest = true) :
    uberHdrMatch (t ++ ':' :: (s ++ ':' :: (p ++ ':' :: (f ++ rest)))) = some (t, s, p, f) := by
  have hcolon : ∀ l : List Char, ((':' :: l).takeWhile isHexLower) = [] :=
    fun l => List.takeWhile_cons_of_neg (by decide)
  have hrestTW : rest.takeWhile isHexLower = [] := by
    cases rest with
    | nil => rfl
    | cons c r =>
      simp only [acceptTail, Bool.and_eq_true, decide_eq_true_eq] at hrest
      rw [hrest.1]
      exact List.takeWhile_cons_of_neg (by decide)
  unfold uberHdrMatch
  rw [hexRun_of_shape t _ 1 32 ht (hcolon _) lt1 lt2]
  simp only [Option.some_bind]
  rw [expectColon_colon]
  simp only [Option.some_bind]
  rw [hexRun_of_shape s _ 1 16 hs (hcolon _) ls1 ls2]
  simp only [Option.some_bind]
  rw [expectColon_colon]
  simp only [Option.some_bind]
  rw [hexRun_of_shape p _ 1 16 hp (hcolon _) lp1 lp2]
  simp only [Option.some_bind]
  rw [expectColon_colon]
  simp only [Option.some_bind]
  rw [hexRun_of_shape f rest 1 2 hf hrestTW lf1 lf2]
  simp only [Option.some_bind]
  rw [if_pos hrest]

theorem uberHdrMatch_eq_some {h t s p f : List Char}
    (hm : uberHdrMatch h = some (t, s, p, f)) :
    ∃ rest, h = t ++ ':' :: (s ++ ':' :: (p ++ ':' :: (f ++ rest))) ∧
      acceptTail rest = true ∧
      (∀ c ∈ t, isHexLower c) ∧ (∀ c ∈ s, isHexLower c) ∧
      (∀ c ∈ p, isHexLower c) ∧ (∀ c ∈ f, isHexLower c) ∧
      1 ≤ t.length ∧ t.length ≤ 32 ∧ 1 ≤ s.length ∧ s.length ≤ 16 ∧
      1 ≤ p.length ∧ p.length ≤ 16 ∧ 1 ≤ f.length ∧ f.length ≤ 2 := by
  unfold uberHdrMatch at hm
  simp only [Option.bind_eq_some] at hm
  obtain ⟨⟨t0, r1⟩, e1, r1', ec1, ⟨s0, r2⟩, e2, r2', ec2, ⟨p0, r3⟩, e3, r3', ec3,
    ⟨f0, r4⟩, e4, hfin⟩ := hm
  obtain ⟨hh, hth, ht1, ht2, _⟩ := hexRun_eq_some e1
  obtain ⟨hr1, hsh, hs1, hs2, _⟩ := hexRun_eq_some e2
  obtain ⟨hr2, hph, hp1, hp2, _⟩ := hexRun_eq_some e3
  obtain ⟨hr3, hfh, hf1, hf2, _⟩ := hexRun_eq_some e4
  have hc1 : r1 = ':' :: r1' := expectColon_eq_some ec1
  have hc2 : r2 = ':' :: r2' := expectColon_eq_some ec2
  have hc3 : r3 = ':' :: r3' := expectColon_eq_some ec3
  split at hfin
  · rename_i htail
    simp only [Option.some.injEq, Prod.mk.injEq] at hfin
    obtain ⟨q1, q2, q3, q4⟩ := hfin
    subst q1
    subst q2
    subst q3
    subst q4
    refine ⟨r4, ?_, htail, hth, hsh, hph, hfh, ht1, ht2, hs1, hs2, hp1, hp2, hf1, hf2⟩
    rw [hh, hc1, hr1, hc2, hr2, hc3, hr3]
  · simp at hfin

/-- A matched header is nonempty (its trace-id group has at least one
character). -/
theorem uberHdrMatch_ne_nil {h t s p f : List Char}
    (hm : uberHdrMatch h = some (t, s, p, f)) : h ≠ [] := by
  obtain ⟨rest, hh, -, -, -, -, -, ht1, -⟩ := uberHdrMatch_eq_some hm
  intro hnil
  rw [hnil] at hh
  cases t with
  | nil => simp at ht1
  | cons c t0 => simp at hh

/-! ### Round-trip lemmas -/

theorem isHexLower_natToHexDigitChar : ∀ d, d < 16 → isHexLower (natToHexDigitChar d) = true := by
  decide

theorem hexEncodeByte_all_hex (b : Nat) (hb : b < 256) :
    ∀ c ∈ hexEncodeByte b, isHexLower c := by
  intro c hc
  have hhi : b / 16 < 16 := Nat.div_lt_of_lt_mul (by omega)
  have hlo : b % 16 < 16 := Nat.mod_lt _ (by omega)
  simp only [hexEncodeByte, List.mem_cons, List.not_mem_nil, or_false] at hc
  rcases hc with rfl | rfl
  · exact isHexLower_natToHexDigitChar _ hhi
  · exact isHexLower_natToHexDigitChar _ hlo

theorem hexEncode_all_hex (bs : List Nat) (hb : ∀ b ∈ bs, b < 256) :
    ∀ c ∈ hexEncode bs, isHexLower c := by
  induction bs with
  | nil => simp [hexEncode]
  | cons b rest ih =>
    rw [hexEncode_cons]
    intro c hc
    have hb0 : b < 256 := hb b (List.mem_cons_self _ _)
    simp only [List.mem_cons] at hc
    rcases hc with rfl | rfl | hc
    · exact isHexLower_natToHexDigitChar _ (Nat.div_lt_of_lt_mul (by omega))
    · exact isHexLower_natToHexDigitChar _ (Nat.mod_lt _ (by omega))
    · exact ih (fun x hx => hb x (List.mem_cons_of_mem _ hx)) c hc

/-- `decodeHexID` on the full-width encoding of a nonzero byte string
is the identity: no padding is added and the all-zero test fails. -/
theorem decodeHexID_hexEncode (bs : List Nat) (hb : ∀ b ∈ bs, b < 256)
    (hnz : bs ≠ List.replicate bs.length 0) :
    decodeHexID (hexEncode bs) bs.length = some bs := by
  unfold decodeHexID
  rw [hexDecode_hexEncode bs hb]
  show (if bs.length < bs.length then (none : Option (List Nat))
    else if bs.all (· == 0) then none
    else some (List.replicate (bs.length - bs.length) 0 ++ bs)) = some bs
  rw [if_neg (lt_irrefl _)]
  have hall : ¬(bs.all (· == 0) = true) := by
    intro hc
    apply hnz
    rw [List.eq_replicate_iff]
    exact ⟨rfl, fun b hb' => by simpa using List.all_eq_true.mp hc b hb'⟩
  rw [if_neg hall]
  simp

/-- Encoding one byte and hex-decoding it returns that byte. -/
theorem hexDecode_hexEncodeByte (b : Nat) (hb : b < 256) :
    hexDecode (hexEncodeByte b) = some [b] := by
  have h1 : hexEncode [b] = hexEncodeByte b := by
    simp [hexEncode]
  rw [← h1]
  exact hexDecode_hexEncode [b] (by intro x hx; simp at hx; omega)

theorem and_one_lt_256 (n : Nat) : n &&& 1 < 256 := by
  have h := Nat.and_le_right (n := n) (m := 1)
  omega

/-- Parsing the header value built by `Inject` recovers exactly the
four groups that were formatted into it. -/
theorem uberHdrMatch_injectValue (sc : SpanContext) (hwf : sc.wellFormed) :
    uberHdrMatch (uberInjectValue sc) =
      some (hexEncode sc.traceID, hexEncode sc.spanID, List.replicate 16 '0',
        hexEncodeByte (sc.traceFlags &&& 1)) := by
  obtain ⟨hlt, hbt, hls, hbs, hfl⟩ := hwf
  have h0 : ∀ c ∈ List.replicate 16 '0', isHexLower c := by
    intro c hc
    rw [List.mem_replicate] at hc
    rw [hc.2]
    decide
  have hmain := uberHdrMatch_of_shape (hexEncode sc.traceID) (hexEncode sc.spanID)
    (List.replicate 16 '0') (hexEncodeByte (sc.traceFlags &&& 1)) []
    (hexEncode_all_hex _ hbt) (hexEncode_all_hex _ hbs) h0
    (hexEncodeByte_all_hex _ (and_one_lt_256 _))
    (by rw [hexEncode_length, hlt]; try omega) (by rw [hexEncode_length, hlt]; try omega)
    (by rw [hexEncode_length, hls]; try omega) (by rw [hexEncode_length, hls]; try omega)
    (by simp) (by simp) (by simp [hexEncodeByte]) (by simp [hexEncodeByte]) rfl
  rwa [List.append_nil] at hmain

/-- Extraction applied to the exact header value `Inject` formats
recovers the ids unchanged and the flags masked to the sampling bit. -/
theorem uberExtractHeader_injectValue (sc : SpanContext) (hwf : sc.wellFormed)
    (hv : sc.isValid = true) :
    uberExtractHeader (uberInjectValue sc) =
      ⟨sc.traceID, sc.spanID, sc.traceFlags &&& 1⟩ := by
  obtain ⟨hlt, hbt, hls, hbs, hfl⟩ := hwf
  have hvok : sc.traceID ≠ List.replicate 16 0 ∧ sc.spanID ≠ List.replicate 8 0 := by
    have hx := hv
    unfold SpanContext.isValid at hx
    simp only [Bool.and_eq_true, decide_eq_true_eq] at hx
    exact hx
  have hmatch := uberHdrMatch_injectValue sc ⟨hlt, hbt, hls, hbs, hfl⟩
  have htid : decodeHexID (hexEncode sc.traceID) 16 = some sc.traceID := by
    have hx := decodeHexID_hexEncode sc.traceID hbt (by rw [hlt]; exact hvok.1)
    rwa [hlt] at hx
  have hsid : decodeHexID (hexEncode sc.spanID) 8 = some sc.spanID := by
    have hx := decodeHexID_hexEncode sc.spanID hbs (by rw [hls]; exact hvok.2)
    rwa [hls] at hx
  have hfd : hexDecode (hexEncodeByte (sc.traceFlags &&& 1)) =
      some [sc.traceFlags &&& 1] :=
    hexDecode_hexEncodeByte _ (and_one_lt_256 _)
  have hand : (sc.traceFlags &&& 1) &&& 1 = sc.traceFlags &&& 1 := by
    rw [Nat.and_one_is_mod, Nat.and_one_is_mod, Nat.mod_mod_of_dvd _ (dvd_refl 2)]
  have hv2 : (⟨sc.traceID, sc.spanID, sc.traceFlags &&& 1⟩ : SpanContext).isValid = true := hv
  unfold uberExtractHeader
  rw [if_neg (uberHdrMatch_ne_nil hmatch), hmatch]
  simp only [htid, hsid, hfd, List.headD_cons, hand, hv2, if_true]

/-- `Inject` into the empty carrier stores the formatted value under
the `uber-trace-id` key. -/
theorem carrierGet_uberInject_nil (sc : SpanContext) (hv : sc.isValid = true) :
    carrierGet (uberInject sc []) uberHeaderKey = uberInjectValue sc := by
  unfold uberInject
  rw [if_pos hv]
  unfold carrierSet carrierGet
  simp

/-! ### The environment carrier (`environ.go`)

`transcode` iterates over the raw bytes of its input string, so keys
are modelled as lists of byte values; an ASCII string appears as its
byte sequence (`'A'` = 65, `'Z'` = 90, `'a'` = 97, `'z'` = 122,
`'-'` = 45, `'_'` = 95). -/

/-- One step of the `transcode` switch, in source order: the special
input byte maps to its replacement, `A-Z` and `a-z` pass through,
anything else is an error. -/
def transcodeByte (c specialIn specialOut : Nat) : Option Nat :=
  if c = specialIn then some specialOut
  else if 65 ≤ c ∧ c ≤ 90 then some c
  else if 97 ≤ c ∧ c ≤ 122 then some c
  else none

/-- `bytes.ToUpper` on one ASCII byte. -/
def toUpperByte (c : Nat) : Nat :=
  if 97 ≤ c ∧ c ≤ 122 then c - 32 else c

/-- Model of `transcode`: translate every byte, failing on the first
unsupported one, then uppercase the translated result (the source
applies `bytes.ToUpper` to the whole output, which acts per byte). -/
def transcode (s : List Nat) (specialIn specialOut : Nat) : Option (List Nat) :=
  match s with
  | [] => some []
  | c :: rest =>
    match transcodeByte c specialIn specialOut, transcode rest specialIn specialOut with
    | some o, some os => some (toUpperByte o :: os)
    | _, _ => none

/-- `envEncode`: `-` in a key becomes `_` in the environment name. -/
def envEncode (s : List Nat) : Option (List Nat) := transcode s 45 95

/-- `envDecode`: `_` in an environment name becomes `-` in the key. -/
def envDecode (s : List Nat) : Option (List Nat) := transcode s 95 45

/-- The fixed environment name prefix `OTELTEXTMAP_`, as bytes. -/
def environPrefixBytes : List Nat := "OTELTEXTMAP_".data.map Char.toNat

/-- `EnvironCarrier.Set`: encode the key and write the value under
`OTELTEXTMAP_<encoded key>`.  The write is modelled as the name/value
pair passed to `os.Setenv`; an encoding error panics first, so nothing
is written (`none`). -/
def environSet (key value : List Nat) : Option (List Nat × List Nat) :=
  match envEncode key with
  | none => none
  | some ek => some ( environPrefixBytes ++ ek, value)

/-- The byte set the strict key transcoding accepts: ASCII letters and
the hyphen. -/
def envKeyByteOK (c : Nat) : Bool :=
  decide ((65 ≤ c ∧ c ≤ 90) ∨ (97 ≤ c ∧ c ≤ 122) ∨ c = 45)

/-! ### The message-header carriers (`kafka.go`)

`kafkaCarrier` and `franzKafkaCarrier` hold an ordered list of
(key, value) headers with identical logic.  Go converts values through
`[]byte`, which is lossless, so values stay strings here. -/

/-- `kafkaCarrier.Get`: value of the first header whose key matches,
empty string otherwise. -/
def kafkaGet (hdrs : List (List Char × List Char)) (k : List Char) : List Char :=
  match hdrs with
  | [] => []
  | h :: rest => if h.1 = k then h.2 else kafkaGet rest k

/-- `kafkaCarrier.Set`: overwrite the value of the first header whose
key matches, otherwise append a new header. -/
def kafkaSet (hdrs : List (List Char × List Char)) (k v : List Char) :
    List (List Char × List Char) :=
  match hdrs with
  | [] => [(k, v)]
  | h :: rest => if h.1 = k then (h.1, v) :: rest else h :: kafkaSet rest k v

/-- `kafkaCarrier.Keys`: all keys in sequence order. -/
def kafkaKeys (hdrs : List (List Char × List Char)) : List (List Char) :=
  hdrs.map Prod.fst

/-! ### Concrete values used by witnesses -/

/-- The trace id `ee2ec3bb2402eb08625a76f762fb73bb` as bytes. -/
def tidEx : List Nat :=
  [0xee, 0x2e, 0xc3, 0xbb, 0x24, 0x02, 0xeb, 0x08,
   0x62, 0x5a, 0x76, 0xf7, 0x62, 0xfb, 0x73, 0xbb]

/-- The span id `5c301b3cb0f66539` as bytes. -/
def sidEx : List Nat := [0x5c, 0x30, 0x1b, 0x3c, 0xb0, 0xf6, 0x65, 0x39]

/-- The trace id `00000000000000005775daa08825b4b9` as bytes. -/
def tidShortEx : List Nat :=
  [0, 0, 0, 0, 0, 0, 0, 0, 0x57, 0x75, 0xda, 0xa0, 0x88, 0x25, 0xb4, 0xb9]

/-! ### Claim theorems -/

/-- C1: for every valid trace context (non-zero trace-id, non-zero
span-id, arbitrary flags byte), extracting the carrier produced by
injecting it into an empty carrier yields a context with exactly the
same trace-id and span-id, the same sampling bit, and every
non-sampling flag bit cleared. -/
theorem uber_roundtrip_law (ctx0 : Option SpanContext) (sc : SpanContext)
    (hwf : sc.wellFormed) (hv : sc.isValid = true) :
    uberExtractCtx ctx0 (uberInject sc []) =
      some ⟨sc.traceID, sc.spanID, sc.traceFlags &&& 1⟩ := by
  have hext := uberExtractHeader_injectValue sc hwf hv
  have hcar := carrierGet_uberInject_nil sc hv
  have hv2 : (⟨sc.traceID, sc.spanID, sc.traceFlags &&& 1⟩ : SpanContext).isValid = true := hv
  simp only [uberExtractCtx, uberExtract, hcar, hext, hv2, if_true]

theorem uber_roundtrip_law_witness :
    (⟨tidEx, sidEx, 255⟩ : SpanContext).wellFormed ∧
    (⟨tidEx, sidEx, 255⟩ : SpanContext).isValid = true ∧
    uberExtractCtx none (uberInject ⟨tidEx, sidEx, 255⟩ []) =
      some ⟨tidEx, sidEx, 255 &&& 1⟩ :=
  ⟨by unfold SpanContext.wellFormed; decide, by decide,
    uber_roundtrip_law none ⟨tidEx, sidEx, 255⟩
      (by unfold SpanContext.wellFormed; decide) (by decide)⟩

/-- C7: injecting an invalid span context (all-zero trace id or
all-zero span id) writes nothing: the carrier is returned exactly as it
was. -/
theorem uber_inject_invalid_noop (sc : SpanContext)
    (carrier : List (List Char × List Char)) (hv : sc.isValid = false) :
    uberInject sc carrier = carrier := by
  unfold uberInject
  rw [hv]
  simp

theorem uber_inject_invalid_noop_witness :
    SpanContext.zero.isValid = false ∧
    uberInject SpanContext.zero [(['x'], ['y'])] = [(['x'], ['y'])] :=
  ⟨by decide, uber_inject_invalid_noop SpanContext.zero [(['x'], ['y'])] (by decide)⟩

/-- C8: `Extract` surfaces no error for any carrier content: its
result is either the caller's context unchanged (in particular
whenever the header is absent, empty or malformed, since then the
parsed span context is invalid) or a valid extracted span context;
a pre-existing context is therefore never downgraded to none. -/
theorem uber_extract_never_errors (ctx : Option SpanContext)
    (carrier : List (List Char × List Char)) :
    uberExtractCtx ctx carrier = ctx ∨
      (uberExtract carrier).isValid = true ∧
        uberExtractCtx ctx carrier = some (uberExtract carrier) := by
  by_cases hval : (uberExtract carrier).isValid = true
  · right
    exact ⟨hval, by simp only [uberExtractCtx, hval, if_true]⟩
  · left
    simp only [uberExtractCtx]
    rw [if_neg hval]

/-- C9, counterexample to the claim as stated: the pattern's tail
`(?:-.*)?$` cannot cross a newline (RE2 `.` excludes `\n`), so
appending `-` and the suffix `x\ny` to the well-formed header
`aa:bb:cc:01` changes the extraction result: the suffixed header no
longer matches and extracts nothing, while the header alone extracts a
valid context. -/
theorem uber_vendor_suffix_cex :
    uberHdrMatch "aa:bb:cc:01".data =
      some ("aa".data, "bb".data, "cc".data, "01".data) ∧
    uberExtractHeader ("aa:bb:cc:01".data ++ '-' :: ['x', '\n', 'y']) ≠
      uberExtractHeader "aa:bb:cc:01".data := by
  refine ⟨by decide, by decide⟩

/-- C9, amended: a header the pattern accepts, extended by `-` and a
suffix containing no newline character, extracts to exactly the same
result as the header alone. -/
theorem uber_vendor_suffix_ignored (h suffix t s p f : List Char)
    (hm : uberHdrMatch h = some (t, s, p, f)) (hnl : '\n' ∉ suffix) :
    uberExtractHeader (h ++ '-' :: suffix) = uberExtractHeader h := by
  obtain ⟨rest, hh, htail, hth, hsh, hph, hfh, ht1, ht2, hs1, hs2, hp1, hp2, hf1, hf2⟩ :=
    uberHdrMatch_eq_some hm
  have hsall : ∀ x ∈ suffix, ¬x = '\n' := fun x hx he => hnl (he ▸ hx)
  have htail2 : acceptTail (rest ++ '-' :: suffix) = true := by
    cases rest with
    | nil =>
      simp only [List.nil_append, acceptTail, Bool.and_eq_true, decide_eq_true_eq,
        List.all_eq_true]
      exact ⟨trivial, hsall⟩
    | cons c r =>
      simp only [acceptTail, Bool.and_eq_true, decide_eq_true_eq] at htail
      have hr : ∀ x ∈ r, ¬x = '\n' := by simpa using htail.2
      simp only [List.cons_append, acceptTail, Bool.and_eq_true, decide_eq_true_eq,
        List.all_append, List.all_cons, List.all_eq_true]
      exact ⟨htail.1, hr, by decide, hsall⟩
  have hm2 : uberHdrMatch (h ++ '-' :: suffix) = some (t, s, p, f) := by
    have hshape : h ++ '-' :: suffix =
        t ++ ':' :: (s ++ ':' :: (p ++ ':' :: (f ++ (rest ++ '-' :: suffix)))) := by
      rw [hh]
      simp [List.append_assoc]
    rw [hshape]
    exact uberHdrMatch_of_shape t s p f (rest ++ '-' :: suffix)
      hth hsh hph hfh ht1 ht2 hs1 hs2 hp1 hp2 hf1 hf2 htail2
  unfold uberExtractHeader
  rw [if_neg (uberHdrMatch_ne_nil hm2), if_neg (uberHdrMatch_ne_nil hm), hm, hm2]

theorem uber_vendor_suffix_ignored_witness :
    uberHdrMatch "aa:bb:cc:01".data =
      some ("aa".data, "bb".data, "cc".data, "01".data) ∧
    '\n' ∉ "vendor".data ∧
    uberExtractHeader ("aa:bb:cc:01".data ++ '-' :: "vendor".data) =
      uberExtractHeader "aa:bb:cc:01".data :=
  ⟨by decide, by decide,
    uber_vendor_suffix_ignored "aa:bb:cc:01".data "vendor".data
      "aa".data "bb".data "cc".data "01".data (by decide) (by decide)⟩

/-- C10: a header the pattern accepts whose trace-id, span-id or flags
group has an odd number of hex digits is nevertheless rejected,
because Go hex decoding fails on odd-length input. -/
theorem uber_odd_length_group_rejected (h t s p f : List Char)
    (hm : uberHdrMatch h = some (t, s, p, f))
    (hodd : t.length % 2 = 1 ∨ s.length % 2 = 1 ∨ f.length % 2 = 1) :
    uberExtractHeader h = SpanContext.zero := by
  have hne := uberHdrMatch_ne_nil hm
  unfold uberExtractHeader
  rw [if_neg hne, hm]
  rcases hodd with hot | hos | hof
  · have hdt : decodeHexID t 16 = none := by
      unfold decodeHexID
      rw [hexDecode_odd t hot]
    simp [hdt]
  · have hds : decodeHexID s 8 = none := by
      unfold decodeHexID
      rw [hexDecode_odd s hos]
    cases hdt : decodeHexID t 16 with
    | none => simp [hdt]
    | some tid => simp [hdt, hds]
  · have hdf : hexDecode f = none := hexDecode_odd f hof
    cases hdt : decodeHexID t 16 with
    | none => simp [hdt]
    | some tid =>
      cases hds : decodeHexID s 8 with
      | none => simp [hdt, hds]
      | some sid => simp [hdt, hds, hdf]

theorem uber_odd_length_group_rejected_witness :
    uberHdrMatch "aa:bb:cc:1".data =
      some ("aa".data, "bb".data, "cc".data, "1".data) ∧
    ("1".data).length % 2 = 1 ∧
    uberExtractHeader "aa:bb:cc:1".data = SpanContext.zero :=
  ⟨by decide, by decide,
    uber_odd_length_group_rejected "aa:bb:cc:1".data
      "aa".data "bb".data "cc".data "1".data (by decide)
      (Or.inr (Or.inr (by decide)))⟩

/-- C4: a header the pattern accepts whose trace-id group or span-id
group hex-decodes to all-zero bytes (at any written width; padding only
adds zero bytes) extracts to no context, whatever the other fields
contain. -/
theorem uber_all_zero_id_rejected (h t s p f : List Char)
    (hm : uberHdrMatch h = some (t, s, p, f))
    (hzero : (∃ d, hexDecode t = some d ∧ d.all (· == 0) = true) ∨
             (∃ d, hexDecode s = some d ∧ d.all (· == 0) = true)) :
    uberExtractHeader h = SpanContext.zero := by
  have hne := uberHdrMatch_ne_nil hm
  unfold uberExtractHeader
  rw [if_neg hne, hm]
  rcases hzero with ⟨d, hd, hz⟩ | ⟨d, hd, hz⟩
  · have hdt : decodeHexID t 16 = none := by
      unfold decodeHexID
      rw [hd]
      show (if 16 < d.length then (none : Option (List Nat))
        else if d.all (· == 0) then none
        else some (List.replicate (16 - d.length) 0 ++ d)) = none
      by_cases h16 : 16 < d.length
      · rw [if_pos h16]
      · rw [if_neg h16, if_pos hz]
    simp [hdt]
  · have hds : decodeHexID s 8 = none := by
      unfold decodeHexID
      rw [hd]
      show (if 8 < d.length then (none : Option (List Nat))
        else if d.all (· == 0) then none
        else some (List.replicate (8 - d.length) 0 ++ d)) = none
      by_cases h8 : 8 < d.length
      · rw [if_pos h8]
      · rw [if_neg h8, if_pos hz]
    cases hdt : decodeHexID t 16 with
    | none => simp [hdt]
    | some tid => simp [hdt, hds]

theorem uber_all_zero_id_rejected_witness :
    uberHdrMatch "0000:bb:cc:01".data =
      some ("0000".data, "bb".data, "cc".data, "01".data) ∧
    hexDecode "0000".data = some [0, 0] ∧
    uberExtractHeader "0000:bb:cc:01".data = SpanContext.zero :=
  ⟨by decide, by decide,
    uber_all_zero_id_rejected "0000:bb:cc:01".data
      "0000".data "bb".data "cc".data "01".data (by decide)
      (Or.inl ⟨[0, 0], by decide, by decide⟩)⟩

/-- C2, counterexample to the claim as stated: injecting the sampled
context does not produce a header value ending in `:1`; the masked
flags byte is rendered by `trace.TraceFlags.String` as two hex digits,
so the value ends in `:01`. -/
theorem uber_concrete_scenario_cex :
    uberInject ⟨tidEx, sidEx, 1⟩ [] ≠
      [(uberHeaderKey,
        "ee2ec3bb2402eb08625a76f762fb73bb:5c301b3cb0f66539:0000000000000000:1".data)] := by
  decide

/-- C2, amended: injecting trace-id `ee2ec3bb2402eb08625a76f762fb73bb`,
span-id `5c301b3cb0f66539`, sampled=true writes
`ee2ec3bb2402eb08625a76f762fb73bb:5c301b3cb0f66539:0000000000000000:01`
under the `uber-trace-id` key, and extracting
`5775daa08825b4b9:5c301b3cb0f66539:114d5e5bcc8bc4c8:01` yields trace-id
`00000000000000005775daa08825b4b9`, span-id `5c301b3cb0f66539` and
sampling flag 1. -/
theorem uber_concrete_scenario_amended :
    uberInject ⟨tidEx, sidEx, 1⟩ [] =
      [(uberHeaderKey,
        "ee2ec3bb2402eb08625a76f762fb73bb:5c301b3cb0f66539:0000000000000000:01".data)] ∧
    uberExtractHeader "5775daa08825b4b9:5c301b3cb0f66539:114d5e5bcc8bc4c8:01".data =
      ⟨tidShortEx, sidEx, 1⟩ := by
  constructor
  · decide
  · decide

/-- C3: the code rejects a short odd-digit trace-id group outright
(hex decode error) while accepting its zero-left-padded full-width
form, so short and padded forms do not extract identically; the
divergence is evaluated at trace-id group `575`. -/
theorem uber_short_vs_padded_divergence :
    uberExtractHeader "575:5c301b3cb0f66539:114d5e5bcc8bc4c8:01".data = SpanContext.zero ∧
    uberExtractHeader
        "00000000000000000000000000000575:5c301b3cb0f66539:114d5e5bcc8bc4c8:01".data =
      ⟨[0, 0, 0, 0, 0, 0, 0, 0, 0, 0, 0, 0, 0, 0, 0x05, 0x75], sidEx, 1⟩ ∧
    (⟨[0, 0, 0, 0, 0, 0, 0, 0, 0, 0, 0, 0, 0, 0, 0x05, 0x75], sidEx, 1⟩
        : SpanContext).isValid = true := by
  refine ⟨by decide, by decide, by decide⟩

/-! ### Lemmas on the message-header carrier -/

theorem kafkaSet_overwrite (pre post : List (List Char × List Char)) (k v v0 : List Char)
    (hk : k ∉ kafkaKeys pre) :
    kafkaSet (pre ++ (k, v0) :: post) k v = pre ++ (k, v) :: post := by
  induction pre with
  | nil =>
    simp [kafkaSet]
  | cons h0 pre' ih =>
    simp only [kafkaKeys, List.map_cons, List.mem_cons, not_or] at hk
    simp only [List.cons_append, kafkaSet, List.append_eq]
    rw [if_neg (fun hc => hk.1 hc.symm), ih hk.2]

theorem kafkaSet_append (hdrs : List (List Char × List Char)) (k v : List Char)
    (hk : k ∉ kafkaKeys hdrs) :
    kafkaSet hdrs k v = hdrs ++ [(k, v)] := by
  induction hdrs with
  | nil => rfl
  | cons h0 rest ih =>
    simp only [kafkaKeys, List.map_cons, List.mem_cons, not_or] at hk
    simp only [kafkaSet, List.cons_append, List.append_eq]
    rw [if_neg (fun hc => hk.1 hc.symm), ih hk.2]

theorem kafkaGet_set_set (hdrs : List (List Char × List Char)) (k v1 v2 : List Char) :
    kafkaGet (kafkaSet (kafkaSet hdrs k v1) k v2) k = v2 := by
  induction hdrs with
  | nil => simp [kafkaSet, kafkaGet]
  | cons h0 rest ih =>
    by_cases hc : h0.1 = k
    · simp [kafkaSet, hc, kafkaGet]
    · simp [kafkaSet, hc, kafkaGet, ih]

theorem kafkaSet_length_ge (hdrs : List (List Char × List Char)) (k v : List Char) :
    hdrs.length ≤ (kafkaSet hdrs k v).length := by
  induction hdrs with
  | nil => simp [kafkaSet]
  | cons h0 rest ih =>
    simp only [kafkaSet]
    by_cases hc : h0.1 = k
    · rw [if_pos hc]
      simp
    · rw [if_neg hc]
      simp only [List.length_cons]
      omega

/-- C6: `Set` on a key already present overwrites the first matching
pair in place and keeps all pairs in order; `Set` on a fresh key
appends exactly one pair; `Get` after two `Set` calls on one key sees
the later value; and the key list never shrinks across a `Set`. -/
theorem kafka_carrier_set_laws (hdrs pre post : List (List Char × List Char))
    (k v v0 v1 v2 : List Char) :
    (k ∉ kafkaKeys pre →
      kafkaSet (pre ++ (k, v0) :: post) k v = pre ++ (k, v) :: post) ∧
    (k ∉ kafkaKeys hdrs → kafkaSet hdrs k v = hdrs ++ [(k, v)]) ∧
    kafkaGet (kafkaSet (kafkaSet hdrs k v1) k v2) k = v2 ∧
    (kafkaKeys hdrs).length ≤ (kafkaKeys (kafkaSet hdrs k v)).length :=
  ⟨fun hk => kafkaSet_overwrite pre post k v v0 hk,
   fun hk => kafkaSet_append hdrs k v hk,
   kafkaGet_set_set hdrs k v1 v2,
   by
    simp only [kafkaKeys, List.length_map]
    exact kafkaSet_length_ge hdrs k v⟩

theorem kafka_carrier_set_laws_witness :
    ((['a'] : List Char) ∉ kafkaKeys [(['x'], ['u'])] ∧
      kafkaSet ([(['x'], ['u'])] ++ (['a'], ['1']) :: []) ['a'] ['2'] =
        [(['x'], ['u'])] ++ (['a'], ['2']) :: []) ∧
    (kafkaSet [(['x'], ['u'])] ['a'] ['2'] = [(['x'], ['u'])] ++ [(['a'], ['2'])]) ∧
    kafkaGet (kafkaSet (kafkaSet [(['x'], ['u'])] ['a'] ['1']) ['a'] ['2']) ['a'] = ['2'] ∧
    (kafkaKeys [(['x'], ['u'])]).length ≤
      (kafkaKeys (kafkaSet [(['x'], ['u'])] ['a'] ['2'])).length :=
  ⟨⟨by decide,
    (kafka_carrier_set_laws [(['x'], ['u'])] [(['x'], ['u'])] []
      ['a'] ['2'] ['1'] ['1'] ['2']).1 (by decide)⟩,
   (kafka_carrier_set_laws [(['x'], ['u'])] [(['x'], ['u'])] []
      ['a'] ['2'] ['1'] ['1'] ['2']).2.1 (by decide),
   (kafka_carrier_set_laws [(['x'], ['u'])] [(['x'], ['u'])] []
      ['a'] ['2'] ['1'] ['1'] ['2']).2.2.1,
   (kafka_carrier_set_laws [(['x'], ['u'])] [(['x'], ['u'])] []
      ['a'] ['2'] ['1'] ['1'] ['2']).2.2.2⟩

/-! ### Lemmas on the environment key transcoding -/

theorem transcodeByte_env_none (c : Nat) (hc : envKeyByteOK c = false) :
    transcodeByte c 45 95 = none := by
  simp only [envKeyByteOK, decide_eq_false_iff_not, not_or] at hc
  obtain ⟨h1, h2, h3⟩ := hc
  unfold transcodeByte
  rw [if_neg h3, if_neg h1, if_neg h2]

theorem envEncode_bad (key : List Nat) (hbad : key.all envKeyByteOK = false) :
    envEncode key = none := by
  induction key with
  | nil => simp at hbad
  | cons c rest ih =>
    simp only [List.all_cons, Bool.and_eq_false_iff] at hbad
    unfold envEncode transcode
    rcases hbad with hc | hrest
    · rw [transcodeByte_env_none c hc]
    · have ihr : transcode rest 45 95 = none := ih hrest
      rw [ihr]
      cases transcodeByte c 45 95 <;> rfl

theorem environSet_bad (key value : List Nat) (hbad : key.all envKeyByteOK = false) :
    environSet key value = none := by
  unfold environSet
  rw [envEncode_bad key hbad]

theorem transcode_env_roundtrip (key : List Nat) (hok : key.all envKeyByteOK = true) :
    (envEncode key).bind envDecode = some (key.map toUpperByte) := by
  induction key with
  | nil => rfl
  | cons c rest ih =>
    simp only [List.all_cons, Bool.and_eq_true] at hok
    obtain ⟨hc, hrest⟩ := hok
    have ihr := ih hrest
    cases henc : envEncode rest with
    | none =>
      rw [henc] at ihr
      simp at ihr
    | some enc =>
      rw [henc] at ihr
      simp only [Option.some_bind] at ihr
      have hc2 : (65 ≤ c ∧ c ≤ 90) ∨ (97 ≤ c ∧ c ≤ 122) ∨ c = 45 := by
        simpa [envKeyByteOK] using hc
      rcases hc2 with ⟨h1, h2⟩ | ⟨h1, h2⟩ | rfl
      · -- uppercase letter: both transcodings pass the byte through
        have e1 : transcodeByte c 45 95 = some c := by
          unfold transcodeByte
          rw [if_neg (by omega), if_pos ⟨h1, h2⟩]
        have eU : toUpperByte c = c := by
          unfold toUpperByte
          rw [if_neg (by omega)]
        have e2 : transcodeByte c 95 45 = some c := by
          unfold transcodeByte
          rw [if_neg (by omega), if_pos ⟨h1, h2⟩]
        show (transcode (c :: rest) 45 95).bind envDecode = _
        unfold transcode
        rw [e1, show transcode rest 45 95 = some enc from henc]
        show envDecode (toUpperByte c :: enc) = _
        show transcode (toUpperByte c :: enc) 95 45 = _
        unfold transcode
        rw [eU, e2, show transcode enc 95 45 = some (rest.map toUpperByte) from ihr]
        simp [List.map_cons, eU]
      · -- lowercase letter: uppercased on encode, preserved on decode
        have e1 : transcodeByte c 45 95 = some c := by
          unfold transcodeByte
          rw [if_neg (by omega), if_neg (by omega), if_pos ⟨h1, h2⟩]
        have eU : toUpperByte c = c - 32 := by
          unfold toUpperByte
          rw [if_pos ⟨h1, h2⟩]
        have e2 : transcodeByte (c - 32) 95 45 = some (c - 32) := by
          unfold transcodeByte
          rw [if_neg (by omega), if_pos ⟨by omega, by omega⟩]
        have eU2 : toUpperByte (c - 32) = c - 32 := by
          unfold toUpperByte
          rw [if_neg (by omega)]
        show (transcode (c :: rest) 45 95).bind envDecode = _
        unfold transcode
        rw [e1, show transcode rest 45 95 = some enc from henc]
        show envDecode (toUpperByte c :: enc) = _
        show transcode (toUpperByte c :: enc) 95 45 = _
        unfold transcode
        rw [eU, e2, show transcode enc 95 45 = some (rest.map toUpperByte) from ihr]
        simp [List.map_cons, eU, eU2]
      · -- hyphen: 45 encodes to 95 and decodes back to 45
        have e1 : transcodeByte 45 45 95 = some 95 := by decide
        have eU : toUpperByte 95 = 95 := by decide
        have e2 : transcodeByte 95 95 45 = some 45 := by decide
        have eU2 : toUpperByte 45 = 45 := by decide
        show (transcode (45 :: rest) 45 95).bind envDecode = _
        unfold transcode
        rw [e1, show transcode rest 45 95 = some enc from henc]
        show envDecode (toUpperByte 95 :: enc) = _
        show transcode (toUpperByte 95 :: enc) 95 45 = _
        unfold transcode
        rw [eU, e2, show transcode enc 95 45 = some (rest.map toUpperByte) from ihr]
        simp [List.map_cons, eU2]

/-- C5, counterexample to the claim as stated: the key `hi`
(bytes 104, 105) consists only of ASCII letters, yet decoding its
encoding yields the uppercased key `HI` (72, 73), not the original. -/
theorem environ_key_roundtrip_cex :
    ([104, 105] : List Nat).all envKeyByteOK = true ∧
    (envEncode [104, 105]).bind envDecode = some [72, 73] ∧
    ([72, 73] : List Nat) ≠ [104, 105] := by
  refine ⟨by decide, by decide, by decide⟩

/-- C5, amended: for keys of ASCII letters and hyphens, decoding the
encoding returns the uppercased key (hence the original exactly when
the key has no lowercase letter); for a key with any byte outside that
set, encoding errors and `Set` writes no environment variable. -/
theorem environ_key_roundtrip_amended (key value : List Nat) :
    (key.all envKeyByteOK = true →
      (envEncode key).bind envDecode = some (key.map toUpperByte)) ∧
    (key.all envKeyByteOK = false →
      envEncode key = none ∧ environSet key value = none) :=
  ⟨fun hok => transcode_env_roundtrip key hok,
   fun hbad => ⟨envEncode_bad key hbad, environSet_bad key value hbad⟩⟩

theorem environ_key_roundtrip_amended_witness :
    (([104, 105] : List Nat).all envKeyByteOK = true ∧
      (envEncode [104, 105]).bind envDecode = some ([104, 105].map toUpperByte)) ∧
    (([104, 95] : List Nat).all envKeyByteOK = false ∧
      envEncode [104, 95] = none ∧ environSet [104, 95] [120] = none) :=
  ⟨⟨by decide, (environ_key_roundtrip_amended [104, 105] []).1 (by decide)⟩,
   ⟨by decide, (environ_key_roundtrip_amended [104, 95] [120]).2 (by decide)⟩⟩

end GoOtel
